import Mathlib

/-!
Verification of the similarity-search engine of this repository
(sequential list, k-d tree, LSH hash over color-histogram feature vectors).

Shallow embedding conventions:
* C++ `float` values are modelled as real numbers (`ℝ`); `FLT_MAX`, which the
  code only uses as the initial "no candidate yet" best distance, is modelled
  by an `Option`: `none` plays the role of the pair `(nullptr, FLT_MAX)`, and
  every comparison `x < FLT_MAX` is `True`.
* `std::vector<float>` feature vectors are `List ℝ`; an out-of-bounds read
  (undefined behaviour in C++) is modelled by the default value `0` via
  `List.getD`; all theorems that depend on vector contents carry the
  dimensionality invariant under which such a read never happens, and the
  separately defined checked distance (`euclideanDistanceChecked`) makes the
  error branch explicit.
* Pointer-based mutation (`KdNode*&`, `const Document*& best`) becomes
  explicit state passing: insertion returns the new tree, search threads an
  accumulator `Option (Document × ℝ)` holding the best document and its
  distance.
* `std::map<std::vector<int>, std::vector<Document>>` is modelled
  extensionally as a function `List ℤ → List Document`; an absent key and a
  key mapped to the empty bucket are observationally identical in the source
  (both make `searchSimilar` return `nullptr`, and `insert` appends to a
  default-constructed empty bucket).
-/

namespace SimilaritySearch

/-- `struct Document` (ImageUtils.h, lines 30-49): an integer id, the feature
vector, and the original filename. -/
structure Document where
  id : ℤ
  features : List ℝ
  filename : String

/-- The loop body of `euclideanDistance` (ImageUtils.cpp, lines 20-23): the sum
over indices `0 .. a.size()-1` of `(a[i]-b[i])^2`.  The loop runs over the
indices of `a` only; when `b` is shorter the C++ read `b[i]` is out of bounds,
modelled here by the default value `0` (the second equation). -/
def sqDiffSum : List ℝ → List ℝ → ℝ
  | [], _ => 0
  | x :: xs, [] => (x - 0) ^ 2 + sqDiffSum xs []
  | x :: xs, y :: ys => (x - y) ^ 2 + sqDiffSum xs ys

/-- `euclideanDistance` (ImageUtils.cpp, lines 17-25): the square root of the
sum of squared component differences. -/
noncomputable def euclideanDistance (a b : List ℝ) : ℝ :=
  Real.sqrt (sqDiffSum a b)

/-- Total embedding of the `euclideanDistance` loop in which the out-of-bounds
read `b[i]` (reachable exactly when `b` is shorter than `a`) is an explicit
error value `none` instead of undefined behaviour. -/
def sqDiffSumChecked : List ℝ → List ℝ → Option ℝ
  | [], _ => some 0
  | _ :: _, [] => none
  | x :: xs, y :: ys => (sqDiffSumChecked xs ys).map (fun s => (x - y) ^ 2 + s)

/-- Checked variant of `euclideanDistance`: `none` exactly when the loop would
read past the end of `b`. -/
noncomputable def euclideanDistanceChecked (a b : List ℝ) : Option ℝ :=
  (sqDiffSumChecked a b).map Real.sqrt

/-- The comparison `dist < bestDist` where `bestDist` is `FLT_MAX` when no
candidate has been kept yet (`acc = none`): against `FLT_MAX` it is `True`. -/
def ltFlt (x : ℝ) : Option (Document × ℝ) → Prop
  | none => True
  | some p => x < p.2

noncomputable instance (x : ℝ) :
    (acc : Option (Document × ℝ)) → Decidable (ltFlt x acc)
  | none => isTrue trivial
  | some p => inferInstanceAs (Decidable (x < p.2))

/-- One iteration of the linear-scan loop shared verbatim by
`DocumentList::searchSimilar` (DataStructures.cpp, lines 41-47),
`DocumentHash::searchSimilar` (lines 218-224) and the candidate update of
`KdTree::searchSimilarRec` (lines 114-118): compute the distance to `d` and
keep `d` when it strictly improves on the best distance so far. -/
noncomputable def acceptStep (q : Document) (acc : Option (Document × ℝ))
    (d : Document) : Option (Document × ℝ) :=
  let dist := euclideanDistance q.features d.features
  if ltFlt dist acc then some (d, dist) else acc

/-- The whole linear scan (DataStructures.cpp, lines 37-47 and 216-224),
starting from `best = nullptr`, `bestDist = FLT_MAX`. -/
noncomputable def bestScan (q : Document) (l : List Document) :
    Option (Document × ℝ) :=
  l.foldl (acceptStep q) none

/-- `class DocumentList` (DataStructures.h, lines 31-48): a vector of
documents. -/
structure DocumentList where
  docs : List Document

/-- `DocumentList::insert` (DataStructures.cpp, lines 22-24): push_back. -/
def DocumentList.insert (L : DocumentList) (d : Document) : DocumentList :=
  ⟨L.docs ++ [d]⟩

/-- `DocumentList::searchSimilar` (DataStructures.cpp, lines 34-49): `nullptr`
on an empty list, otherwise the linear scan. -/
noncomputable def DocumentList.searchSimilar (L : DocumentList)
    (query : Document) : Option Document :=
  if L.docs.isEmpty then none
  else (bestScan query L.docs).map Prod.fst

/-! ### Basic facts about the distance and the linear scan -/

theorem sqDiffSum_nonneg (a b : List ℝ) : 0 ≤ sqDiffSum a b := by
  induction a generalizing b with
  | nil => simp [sqDiffSum]
  | cons x xs ih =>
    cases b with
    | nil => have := ih []; simp only [sqDiffSum]; positivity
    | cons y ys => have := ih ys; simp only [sqDiffSum]; positivity

theorem euclideanDistance_nonneg (a b : List ℝ) : 0 ≤ euclideanDistance a b :=
  Real.sqrt_nonneg _

theorem sqDiffSum_self (a : List ℝ) : sqDiffSum a a = 0 := by
  induction a with
  | nil => simp [sqDiffSum]
  | cons x xs ih => simp [sqDiffSum, ih]

theorem euclideanDistance_self (a : List ℝ) : euclideanDistance a a = 0 := by
  simp [euclideanDistance, sqDiffSum_self]

theorem sqDiffSum_comm (a b : List ℝ) (h : a.length = b.length) :
    sqDiffSum a b = sqDiffSum b a := by
  induction a generalizing b with
  | nil => cases b with
    | nil => rfl
    | cons y ys => simp at h
  | cons x xs ih =>
    cases b with
    | nil => simp at h
    | cons y ys =>
      simp only [List.length_cons, Nat.succ_inj] at h
      simp only [sqDiffSum, ih ys h]
      ring_nf

theorem euclideanDistance_comm (a b : List ℝ) (h : a.length = b.length) :
    euclideanDistance a b = euclideanDistance b a := by
  simp [euclideanDistance, sqDiffSum_comm a b h]

/-- Any single squared coordinate difference is bounded by the full sum. -/
theorem sq_coord_le_sqDiffSum (a b : List ℝ) (i : ℕ)
    (ha : i < a.length) (hb : i < b.length) :
    (a.getD i 0 - b.getD i 0) ^ 2 ≤ sqDiffSum a b := by
  induction a generalizing b i with
  | nil => simp at ha
  | cons x xs ih =>
    cases b with
    | nil => simp at hb
    | cons y ys =>
      cases i with
      | zero =>
        simp only [List.getD_cons_zero, sqDiffSum]
        linarith [sqDiffSum_nonneg xs ys]
      | succ j =>
        simp only [List.length_cons, Nat.succ_lt_succ_iff] at ha hb
        calc (List.getD (x :: xs) (j+1) 0 - List.getD (y :: ys) (j+1) 0) ^ 2
            = (xs.getD j 0 - ys.getD j 0) ^ 2 := by simp [List.getD]
          _ ≤ sqDiffSum xs ys := ih ys j ha hb
          _ ≤ sqDiffSum (x :: xs) (y :: ys) := by
              simp only [sqDiffSum]
              have : 0 ≤ (x - y) ^ 2 := sq_nonneg _
              linarith

/-- The Euclidean distance dominates each coordinate distance: the geometric
fact behind the k-d tree pruning test. -/
theorem abs_coord_le_euclideanDistance (a b : List ℝ) (i : ℕ)
    (ha : i < a.length) (hb : i < b.length) :
    |a.getD i 0 - b.getD i 0| ≤ euclideanDistance a b := by
  have h1 : (a.getD i 0 - b.getD i 0) ^ 2 ≤ sqDiffSum a b :=
    sq_coord_le_sqDiffSum a b i ha hb
  have h2 : |a.getD i 0 - b.getD i 0| = Real.sqrt ((a.getD i 0 - b.getD i 0) ^ 2) := by
    rw [Real.sqrt_sq_eq_abs]
  rw [h2, euclideanDistance]
  exact Real.sqrt_le_sqrt h1

/-- The best distance held by an accumulator, with `none` (no candidate yet,
`bestDist = FLT_MAX`) mapped to `⊤`. -/
noncomputable def accD : Option (Document × ℝ) → WithTop ℝ
  | none => ⊤
  | some p => (p.2 : WithTop ℝ)

/-- The infimum of the distances from the query to the documents of a list
(`⊤` for the empty list). -/
noncomputable def infD (q : Document) (l : List Document) : WithTop ℝ :=
  (l.map (fun d => (euclideanDistance q.features d.features : WithTop ℝ))).foldr min ⊤

theorem infD_nil (q : Document) : infD q [] = ⊤ := rfl

theorem infD_cons (q d : Document) (l : List Document) :
    infD q (d :: l) =
      min (euclideanDistance q.features d.features : WithTop ℝ) (infD q l) := rfl

theorem le_infD_iff (q : Document) (l : List Document) (x : WithTop ℝ) :
    x ≤ infD q l ↔
      ∀ d ∈ l, x ≤ (euclideanDistance q.features d.features : WithTop ℝ) := by
  induction l with
  | nil => simp [infD_nil]
  | cons d ds ih => simp [infD_cons, le_min_iff, ih]

theorem infD_le_of_mem (q d : Document) (l : List Document) (hd : d ∈ l) :
    infD q l ≤ (euclideanDistance q.features d.features : WithTop ℝ) :=
  (le_infD_iff q l (infD q l)).mp le_rfl d hd

theorem infD_attained (q : Document) (l : List Document) (h : l ≠ []) :
    ∃ d ∈ l, infD q l = (euclideanDistance q.features d.features : WithTop ℝ) := by
  induction l with
  | nil => exact absurd rfl h
  | cons d ds ih =>
    cases ds with
    | nil => exact ⟨d, List.mem_singleton_self d, by simp [infD_cons, infD_nil]⟩
    | cons e es =>
      obtain ⟨b, hb, hbe⟩ := ih (by simp)
      rcases le_total (euclideanDistance q.features d.features : WithTop ℝ)
        (infD q (e :: es)) with hle | hle
      · exact ⟨d, List.mem_cons_self d _, by rw [infD_cons, min_eq_left hle]⟩
      · exact ⟨b, List.mem_cons_of_mem d hb, by rw [infD_cons, min_eq_right hle, hbe]⟩

theorem infD_perm (q : Document) (l1 l2 : List Document) (h : l1.Perm l2) :
    infD q l1 = infD q l2 := by
  apply le_antisymm
  · rw [le_infD_iff]
    exact fun d hd => infD_le_of_mem q d l1 (h.mem_iff.mpr hd)
  · rw [le_infD_iff]
    exact fun d hd => infD_le_of_mem q d l2 (h.mem_iff.mp hd)

theorem accD_acceptStep (q : Document) (acc : Option (Document × ℝ))
    (d : Document) :
    accD (acceptStep q acc d) =
      min (accD acc) (euclideanDistance q.features d.features : WithTop ℝ) := by
  cases acc with
  | none => simp [acceptStep, ltFlt, accD]
  | some p =>
    by_cases hlt : euclideanDistance q.features d.features < p.2
    · have : ltFlt (euclideanDistance q.features d.features) (some p) := hlt
      rw [acceptStep, if_pos this]
      simp only [accD]
      rw [min_eq_right]
      exact_mod_cast le_of_lt hlt
    · have : ¬ ltFlt (euclideanDistance q.features d.features) (some p) := hlt
      rw [acceptStep, if_neg this]
      simp only [accD]
      rw [min_eq_left]
      exact_mod_cast le_of_not_lt hlt

theorem accD_foldl (q : Document) (l : List Document)
    (acc : Option (Document × ℝ)) :
    accD (l.foldl (acceptStep q) acc) = min (accD acc) (infD q l) := by
  induction l generalizing acc with
  | nil => simp [infD_nil]
  | cons d ds ih =>
    rw [List.foldl_cons, ih, accD_acceptStep, infD_cons, min_assoc]

/-- Whatever the scan returns came either unchanged from the initial
accumulator or is a document of the list paired with its true distance. -/
theorem foldl_acceptStep_spec (q : Document) (l : List Document) :
    ∀ acc p, l.foldl (acceptStep q) acc = some p →
      acc = some p ∨
        (p.1 ∈ l ∧ p.2 = euclideanDistance q.features p.1.features) := by
  induction l with
  | nil => exact fun acc p h => Or.inl h
  | cons d ds ih =>
    intro acc p h
    rw [List.foldl_cons] at h
    rcases ih (acceptStep q acc d) p h with h1 | h1
    · by_cases hc : ltFlt (euclideanDistance q.features d.features) acc
      · rw [acceptStep, if_pos hc] at h1
        injection h1 with h1
        exact Or.inr ⟨by rw [← h1]; exact List.mem_cons_self d ds, by rw [← h1]⟩
      · rw [acceptStep, if_neg hc] at h1
        exact Or.inl h1
    · exact Or.inr ⟨List.mem_cons_of_mem d h1.1, h1.2⟩

theorem foldl_acceptStep_eq_none (q : Document) (l : List Document) :
    ∀ acc, l.foldl (acceptStep q) acc = none ↔ acc = none ∧ l = [] := by
  induction l with
  | nil => simp
  | cons d ds ih =>
    intro acc
    rw [List.foldl_cons, ih]
    constructor
    · rintro ⟨h1, -⟩
      cases acc with
      | none => simp [acceptStep, ltFlt] at h1
      | some p =>
        by_cases hc : ltFlt (euclideanDistance q.features d.features) (some p)
        · rw [acceptStep, if_pos hc] at h1; exact absurd h1 (by simp)
        · rw [acceptStep, if_neg hc] at h1; exact absurd h1 (by simp)
    · rintro ⟨-, h2⟩
      exact absurd h2 (by simp)

/-! ### K-d tree -/

/-- `struct KdNode` (DataStructures.h, lines 58-65): a document and two owned,
possibly null children.  The null pointer is the constructor `nil`. -/
inductive KdNode where
  | nil : KdNode
  | node (doc : Document) (left right : KdNode) : KdNode

/-- The documents stored in a (sub)tree, root first. -/
def KdNode.toList : KdNode → List Document
  | .nil => []
  | .node doc l r => doc :: (l.toList ++ r.toList)

/-- `class KdTree` (DataStructures.h, lines 74-109): a root pointer and the
dimensionality `k` fixed by the constructor. -/
structure KdTree where
  k : ℕ
  root : KdNode

/-- `KdTree::KdTree(int dimensions)` (DataStructures.h, line 94): empty root. -/
def KdTree.empty (dimensions : ℕ) : KdTree := ⟨dimensions, .nil⟩

/-- `KdTree::insertRec` (DataStructures.cpp, lines 70-86): at a null slot
create a leaf, otherwise compare on axis `depth % k` — strictly less goes
left, else right.  The C++ in-place update of `KdNode*& node` becomes
returning the new subtree. -/
noncomputable def KdTree.insertRec (k : ℕ) : KdNode → Document → ℕ → KdNode
  | .nil, d, _ => .node d .nil .nil
  | .node doc l r, d, depth =>
    if d.features.getD (depth % k) 0 < doc.features.getD (depth % k) 0 then
      .node doc (KdTree.insertRec k l d (depth + 1)) r
    else
      .node doc l (KdTree.insertRec k r d (depth + 1))

/-- `KdTree::insert` (DataStructures.cpp, lines 60-62). -/
noncomputable def KdTree.insert (t : KdTree) (d : Document) : KdTree :=
  ⟨t.k, KdTree.insertRec t.k t.root d 0⟩

/-- `KdTree::searchSimilarRec` (DataStructures.cpp, lines 110-137): visit the
node (the candidate update, lines 114-118, is the shared `acceptStep`),
recurse into the near child, and recurse into the far child only when the
axis distance beats the best distance so far (`FLT_MAX`, i.e. `none`, loses
to everything). -/
noncomputable def KdTree.searchSimilarRec (k : ℕ) (nd : KdNode) (q : Document)
    (acc : Option (Document × ℝ)) (depth : ℕ) : Option (Document × ℝ) :=
  match nd with
  | .nil => acc
  | .node doc l r =>
    let acc1 := acceptStep q acc doc
    let diff := q.features.getD (depth % k) 0 - doc.features.getD (depth % k) 0
    let acc2 := KdTree.searchSimilarRec k (if diff < 0 then l else r) q acc1 (depth + 1)
    if ltFlt |diff| acc2 then
      KdTree.searchSimilarRec k (if diff < 0 then r else l) q acc2 (depth + 1)
    else acc2
termination_by sizeOf nd
decreasing_by
  all_goals (split <;> simp <;> omega)

/-- `KdTree::searchSimilar` (DataStructures.cpp, lines 93-100): `nullptr` on
an empty tree, otherwise run the recursion from `(nullptr, FLT_MAX)`. -/
noncomputable def KdTree.searchSimilar (t : KdTree) (query : Document) :
    Option Document :=
  match t.root with
  | .nil => none
  | .node doc l r =>
    (KdTree.searchSimilarRec t.k (.node doc l r) query none 0).map Prod.fst

theorem searchSimilarRec_nil (k : ℕ) (q : Document)
    (acc : Option (Document × ℝ)) (depth : ℕ) :
    KdTree.searchSimilarRec k .nil q acc depth = acc := by
  rw [KdTree.searchSimilarRec]

theorem searchSimilarRec_node (k : ℕ) (doc : Document) (l r : KdNode)
    (q : Document) (acc : Option (Document × ℝ)) (depth : ℕ) :
    KdTree.searchSimilarRec k (.node doc l r) q acc depth =
      (let acc1 := acceptStep q acc doc
       let diff := q.features.getD (depth % k) 0 - doc.features.getD (depth % k) 0
       let acc2 := KdTree.searchSimilarRec k (if diff < 0 then l else r) q acc1 (depth + 1)
       if ltFlt |diff| acc2 then
         KdTree.searchSimilarRec k (if diff < 0 then r else l) q acc2 (depth + 1)
       else acc2) := by
  rw [KdTree.searchSimilarRec]

/-- The k-d tree ordering invariant that `insertRec` establishes: at depth
`depth` every document in the left subtree is strictly below the node on axis
`depth % k` and every document in the right subtree is not. -/
inductive KdInv (k : ℕ) : ℕ → KdNode → Prop
  | nil (depth : ℕ) : KdInv k depth .nil
  | node (depth : ℕ) (doc : Document) (l r : KdNode)
      (hl : ∀ e ∈ l.toList,
        e.features.getD (depth % k) 0 < doc.features.getD (depth % k) 0)
      (hr : ∀ e ∈ r.toList,
        ¬ e.features.getD (depth % k) 0 < doc.features.getD (depth % k) 0)
      (il : KdInv k (depth + 1) l) (ir : KdInv k (depth + 1) r) :
      KdInv k depth (.node doc l r)

/-- Insertion only adds the new document: the stored multiset grows by `d`
and nothing else changes. -/
theorem insertRec_toList_perm (k : ℕ) (d : Document) :
    ∀ nd depth, (KdTree.insertRec k nd d depth).toList.Perm (d :: nd.toList) := by
  intro nd
  induction nd with
  | nil => intro depth; simp [KdTree.insertRec, KdNode.toList]
  | node doc l r ihl ihr =>
    intro depth
    rw [KdTree.insertRec]
    by_cases hc : d.features.getD (depth % k) 0 < doc.features.getD (depth % k) 0
    · rw [if_pos hc]
      simp only [KdNode.toList]
      refine List.Perm.trans ?_ (List.Perm.swap d doc (l.toList ++ r.toList))
      exact List.Perm.cons doc
        (by simpa using (ihl (depth + 1)).append_right r.toList)
    · rw [if_neg hc]
      simp only [KdNode.toList]
      refine List.Perm.trans ?_ (List.Perm.swap d doc (l.toList ++ r.toList))
      refine List.Perm.cons doc ?_
      exact List.Perm.trans (List.Perm.append_left l.toList (ihr (depth + 1)))
        List.perm_middle

/-- Insertion preserves the k-d ordering invariant. -/
theorem insertRec_KdInv (k : ℕ) (d : Document) :
    ∀ nd depth, KdInv k depth nd →
      KdInv k depth (KdTree.insertRec k nd d depth) := by
  intro nd
  induction nd with
  | nil =>
    intro depth _
    rw [KdTree.insertRec]
    exact KdInv.node depth d .nil .nil (by simp [KdNode.toList])
      (by simp [KdNode.toList]) (KdInv.nil _) (KdInv.nil _)
  | node doc l r ihl ihr =>
    intro depth hinv
    cases hinv with
    | node _ _ _ _ hl hr il ir =>
      rw [KdTree.insertRec]
      by_cases hc : d.features.getD (depth % k) 0 < doc.features.getD (depth % k) 0
      · rw [if_pos hc]
        refine KdInv.node depth doc _ r ?_ hr (ihl (depth + 1) il) ir
        intro e he
        rcases List.mem_cons.mp
          ((insertRec_toList_perm k d l (depth + 1)).mem_iff.mp he) with he1 | he1
        · rwa [he1]
        · exact hl e he1
      · rw [if_neg hc]
        refine KdInv.node depth doc l _ hl ?_ il (ihr (depth + 1) ir)
        intro e he
        rcases List.mem_cons.mp
          ((insertRec_toList_perm k d r (depth + 1)).mem_iff.mp he) with he1 | he1
        · rwa [he1]
        · exact hr e he1

theorem searchSimilarRec_node_lt (k : ℕ) (doc : Document) (l r : KdNode)
    (q : Document) (acc : Option (Document × ℝ)) (depth : ℕ)
    (h : q.features.getD (depth % k) 0 - doc.features.getD (depth % k) 0 < 0) :
    KdTree.searchSimilarRec k (.node doc l r) q acc depth =
      (let acc2 := KdTree.searchSimilarRec k l q (acceptStep q acc doc) (depth + 1)
       if ltFlt |q.features.getD (depth % k) 0 - doc.features.getD (depth % k) 0|
           acc2 then
         KdTree.searchSimilarRec k r q acc2 (depth + 1)
       else acc2) := by
  rw [searchSimilarRec_node]
  simp only [if_pos h]

theorem searchSimilarRec_node_ge (k : ℕ) (doc : Document) (l r : KdNode)
    (q : Document) (acc : Option (Document × ℝ)) (depth : ℕ)
    (h : ¬ q.features.getD (depth % k) 0 - doc.features.getD (depth % k) 0 < 0) :
    KdTree.searchSimilarRec k (.node doc l r) q acc depth =
      (let acc2 := KdTree.searchSimilarRec k r q (acceptStep q acc doc) (depth + 1)
       if ltFlt |q.features.getD (depth % k) 0 - doc.features.getD (depth % k) 0|
           acc2 then
         KdTree.searchSimilarRec k l q acc2 (depth + 1)
       else acc2) := by
  rw [searchSimilarRec_node]
  simp only [if_neg h]

theorem acceptStep_ne_none (q : Document) (acc : Option (Document × ℝ))
    (d : Document) : acceptStep q acc d ≠ none := by
  cases acc with
  | none => simp [acceptStep, ltFlt]
  | some p =>
    by_cases hc : ltFlt (euclideanDistance q.features d.features) (some p)
    · rw [acceptStep]; simp only [if_pos hc]; simp
    · rw [acceptStep]; simp only [if_neg hc]; simp

theorem acceptStep_spec (q : Document) (acc : Option (Document × ℝ))
    (d : Document) (p : Document × ℝ) (h : acceptStep q acc d = some p) :
    acc = some p ∨ (p.1 = d ∧ p.2 = euclideanDistance q.features d.features) := by
  by_cases hc : ltFlt (euclideanDistance q.features d.features) acc
  · rw [acceptStep, if_pos hc] at h
    injection h with h
    exact Or.inr ⟨by rw [← h], by rw [← h]⟩
  · rw [acceptStep, if_neg hc] at h
    exact Or.inl h

/-- The tree search never reports `nullptr` unless it started with no
candidate and the subtree is empty. -/
theorem searchSimilarRec_none_iff (k : ℕ) (q : Document) :
    ∀ nd depth acc, KdTree.searchSimilarRec k nd q acc depth = none ↔
      acc = none ∧ nd = KdNode.nil := by
  intro nd
  induction nd with
  | nil => intro depth acc; rw [searchSimilarRec_nil]; simp
  | node doc l r ihl ihr =>
    intro depth acc
    have hacc1 := acceptStep_ne_none q acc doc
    by_cases hdiff : q.features.getD (depth % k) 0 -
        doc.features.getD (depth % k) 0 < 0
    · rw [searchSimilarRec_node_lt k doc l r q acc depth hdiff]
      simp only []
      have hacc2 : KdTree.searchSimilarRec k l q (acceptStep q acc doc)
          (depth + 1) ≠ none := by
        intro hcon
        exact hacc1 ((ihl (depth + 1) (acceptStep q acc doc)).mp hcon).1
      by_cases hpr : ltFlt
          |q.features.getD (depth % k) 0 - doc.features.getD (depth % k) 0|
          (KdTree.searchSimilarRec k l q (acceptStep q acc doc) (depth + 1))
      · rw [if_pos hpr]
        constructor
        · intro hcon
          exact absurd ((ihr (depth + 1) _).mp hcon).1 hacc2
        · rintro ⟨-, hcon⟩; cases hcon
      · rw [if_neg hpr]
        constructor
        · intro hcon; exact absurd hcon hacc2
        · rintro ⟨-, hcon⟩; cases hcon
    · rw [searchSimilarRec_node_ge k doc l r q acc depth hdiff]
      simp only []
      have hacc2 : KdTree.searchSimilarRec k r q (acceptStep q acc doc)
          (depth + 1) ≠ none := by
        intro hcon
        exact hacc1 ((ihr (depth + 1) (acceptStep q acc doc)).mp hcon).1
      by_cases hpr : ltFlt
          |q.features.getD (depth % k) 0 - doc.features.getD (depth % k) 0|
          (KdTree.searchSimilarRec k r q (acceptStep q acc doc) (depth + 1))
      · rw [if_pos hpr]
        constructor
        · intro hcon
          exact absurd ((ihl (depth + 1) _).mp hcon).1 hacc2
        · rintro ⟨-, hcon⟩; cases hcon
      · rw [if_neg hpr]
        constructor
        · intro hcon; exact absurd hcon hacc2
        · rintro ⟨-, hcon⟩; cases hcon

/-- Whatever the tree search returns came unchanged from the initial
accumulator or is a stored document paired with its true distance. -/
theorem searchSimilarRec_spec (k : ℕ) (q : Document) :
    ∀ nd depth acc p, KdTree.searchSimilarRec k nd q acc depth = some p →
      acc = some p ∨
        (p.1 ∈ nd.toList ∧ p.2 = euclideanDistance q.features p.1.features) := by
  intro nd
  induction nd with
  | nil => intro depth acc p h; rw [searchSimilarRec_nil] at h; exact Or.inl h
  | node doc l r ihl ihr =>
    intro depth acc p h
    have memnode : ∀ x : Document, (x ∈ l.toList ∨ x ∈ r.toList ∨ x = doc) →
        x ∈ (KdNode.node doc l r).toList := by
      intro x hx
      simp only [KdNode.toList, List.mem_cons, List.mem_append]
      tauto
    have up1 : ∀ p1 : Document × ℝ, acceptStep q acc doc = some p1 →
        acc = some p1 ∨
          (p1.1 ∈ (KdNode.node doc l r).toList ∧
            p1.2 = euclideanDistance q.features p1.1.features) := by
      intro p1 h1
      rcases acceptStep_spec q acc doc p1 h1 with h2 | h2
      · exact Or.inl h2
      · exact Or.inr ⟨memnode p1.1 (Or.inr (Or.inr h2.1)), by rw [h2.1]; exact h2.2⟩
    by_cases hdiff : q.features.getD (depth % k) 0 -
        doc.features.getD (depth % k) 0 < 0
    · rw [searchSimilarRec_node_lt k doc l r q acc depth hdiff] at h
      simp only [] at h
      have up2 : ∀ p2 : Document × ℝ,
          KdTree.searchSimilarRec k l q (acceptStep q acc doc) (depth + 1) =
            some p2 →
          acc = some p2 ∨
            (p2.1 ∈ (KdNode.node doc l r).toList ∧
              p2.2 = euclideanDistance q.features p2.1.features) := by
        intro p2 h2
        rcases ihl (depth + 1) (acceptStep q acc doc) p2 h2 with h3 | h3
        · exact up1 p2 h3
        · exact Or.inr ⟨memnode p2.1 (Or.inl h3.1), h3.2⟩
      by_cases hpr : ltFlt
          |q.features.getD (depth % k) 0 - doc.features.getD (depth % k) 0|
          (KdTree.searchSimilarRec k l q (acceptStep q acc doc) (depth + 1))
      · rw [if_pos hpr] at h
        rcases ihr (depth + 1) _ p h with h3 | h3
        · exact up2 p h3
        · exact Or.inr ⟨memnode p.1 (Or.inr (Or.inl h3.1)), h3.2⟩
      · rw [if_neg hpr] at h
        exact up2 p h
    · rw [searchSimilarRec_node_ge k doc l r q acc depth hdiff] at h
      simp only [] at h
      have up2 : ∀ p2 : Document × ℝ,
          KdTree.searchSimilarRec k r q (acceptStep q acc doc) (depth + 1) =
            some p2 →
          acc = some p2 ∨
            (p2.1 ∈ (KdNode.node doc l r).toList ∧
              p2.2 = euclideanDistance q.features p2.1.features) := by
        intro p2 h2
        rcases ihr (depth + 1) (acceptStep q acc doc) p2 h2 with h3 | h3
        · exact up1 p2 h3
        · exact Or.inr ⟨memnode p2.1 (Or.inr (Or.inl h3.1)), h3.2⟩
      by_cases hpr : ltFlt
          |q.features.getD (depth % k) 0 - doc.features.getD (depth % k) 0|
          (KdTree.searchSimilarRec k r q (acceptStep q acc doc) (depth + 1))
      · rw [if_pos hpr] at h
        rcases ihl (depth + 1) _ p h with h3 | h3
        · exact up2 p h3
        · exact Or.inr ⟨memnode p.1 (Or.inl h3.1), h3.2⟩
      · rw [if_neg hpr] at h
        exact up2 p h

theorem infD_append (q : Document) (l1 l2 : List Document) :
    infD q (l1 ++ l2) = min (infD q l1) (infD q l2) := by
  induction l1 with
  | nil => simp [infD_nil]
  | cons d ds ih =>
    rw [List.cons_append, infD_cons, infD_cons, ih, min_assoc]

/-- Soundness of the branch-and-bound pruning: under the k-d ordering
invariant and the dimensionality invariant, the recursive search computes
exactly the minimum of the initial best distance and the distances to all
documents of the subtree — the pruned far subtrees can never contain a
strictly closer document. -/
theorem searchSimilarRec_accD (k : ℕ) (q : Document) (hk : 0 < k)
    (hq : q.features.length = k) :
    ∀ nd depth acc, KdInv k depth nd →
      (∀ e ∈ nd.toList, e.features.length = k) →
      accD (KdTree.searchSimilarRec k nd q acc depth) =
        min (accD acc) (infD q nd.toList) := by
  intro nd
  induction nd with
  | nil =>
    intro depth acc _ _
    rw [searchSimilarRec_nil]
    simp [KdNode.toList, infD_nil]
  | node doc l r ihl ihr =>
    intro depth acc hinv hdim
    have haxis : depth % k < k := Nat.mod_lt _ hk
    have hdocdim : doc.features.length = k :=
      hdim doc (by simp [KdNode.toList])
    have hldim : ∀ e ∈ l.toList, e.features.length = k := fun e he =>
      hdim e (by simp [KdNode.toList, he])
    have hrdim : ∀ e ∈ r.toList, e.features.length = k := fun e he =>
      hdim e (by simp [KdNode.toList, he])
    cases hinv with
    | node _ _ _ _ hl hr il ir =>
      have hacc1 : accD (acceptStep q acc doc) =
          min (accD acc) (euclideanDistance q.features doc.features : WithTop ℝ) :=
        accD_acceptStep q acc doc
      have hlist : infD q (KdNode.node doc l r).toList =
          min (euclideanDistance q.features doc.features : WithTop ℝ)
            (min (infD q l.toList) (infD q r.toList)) := by
        simp [KdNode.toList, infD_cons, infD_append]
      by_cases hdiff : q.features.getD (depth % k) 0 -
          doc.features.getD (depth % k) 0 < 0
      · -- near child is `l`, far child is `r`
        rw [searchSimilarRec_node_lt k doc l r q acc depth hdiff]
        simp only []
        have hacc2 : accD (KdTree.searchSimilarRec k l q (acceptStep q acc doc)
            (depth + 1)) =
            min (min (accD acc)
              (euclideanDistance q.features doc.features : WithTop ℝ))
              (infD q l.toList) := by
          rw [ihl (depth + 1) (acceptStep q acc doc) il hldim, hacc1]
        by_cases hpr : ltFlt
            |q.features.getD (depth % k) 0 - doc.features.getD (depth % k) 0|
            (KdTree.searchSimilarRec k l q (acceptStep q acc doc) (depth + 1))
        · rw [if_pos hpr, ihr (depth + 1) _ ir hrdim, hacc2, hlist]
          simp [min_assoc, min_comm, min_left_comm]
        · rw [if_neg hpr]
          -- the far subtree `r` was pruned: every document there is at least
          -- `|diff|` away on the split axis, hence no closer than the kept
          -- best distance.
          rcases hcase : KdTree.searchSimilarRec k l q (acceptStep q acc doc)
              (depth + 1) with _ | p2
          · rw [hcase] at hpr; exact absurd trivial hpr
          · rw [hcase] at hpr hacc2
            have hbd : p2.2 ≤
                |q.features.getD (depth % k) 0 - doc.features.getD (depth % k) 0| :=
              le_of_not_lt hpr
            have hfar : (accD (some p2)) ≤ infD q r.toList := by
              rw [le_infD_iff]
              intro e he
              have he1 : ¬ e.features.getD (depth % k) 0 <
                  doc.features.getD (depth % k) 0 := hr e he
              have he2 : |q.features.getD (depth % k) 0 -
                  e.features.getD (depth % k) 0| ≤
                  euclideanDistance q.features e.features :=
                abs_coord_le_euclideanDistance q.features e.features (depth % k)
                  (hq ▸ haxis) ((hrdim e he) ▸ haxis)
              have he3 :
                  |q.features.getD (depth % k) 0 - doc.features.getD (depth % k) 0| ≤
                  |q.features.getD (depth % k) 0 - e.features.getD (depth % k) 0| := by
                rw [abs_of_neg hdiff, abs_of_neg (by linarith [le_of_not_lt he1])]
                linarith [le_of_not_lt he1]
              have hfin : p2.2 ≤ euclideanDistance q.features e.features := by
                linarith
              simpa [accD] using WithTop.coe_le_coe.mpr hfin
            rw [hlist, hacc2]
            have hswap :
                min (accD acc)
                  (min (euclideanDistance q.features doc.features : WithTop ℝ)
                    (min (infD q l.toList) (infD q r.toList))) =
                min (min (min (accD acc)
                  (euclideanDistance q.features doc.features : WithTop ℝ))
                  (infD q l.toList)) (infD q r.toList) := by
              rw [min_assoc, min_assoc]
            have hfar2 : min (min (accD acc)
                (euclideanDistance q.features doc.features : WithTop ℝ))
                (infD q l.toList) ≤ infD q r.toList := by
              rw [← hacc2]; exact hfar
            rw [hswap, min_eq_left hfar2]
      · -- near child is `r`, far child is `l`
        rw [searchSimilarRec_node_ge k doc l r q acc depth hdiff]
        simp only []
        have hacc2 : accD (KdTree.searchSimilarRec k r q (acceptStep q acc doc)
            (depth + 1)) =
            min (min (accD acc)
              (euclideanDistance q.features doc.features : WithTop ℝ))
              (infD q r.toList) := by
          rw [ihr (depth + 1) (acceptStep q acc doc) ir hrdim, hacc1]
        by_cases hpr : ltFlt
            |q.features.getD (depth % k) 0 - doc.features.getD (depth % k) 0|
            (KdTree.searchSimilarRec k r q (acceptStep q acc doc) (depth + 1))
        · rw [if_pos hpr, ihl (depth + 1) _ il hldim, hacc2, hlist]
          simp [min_assoc, min_comm, min_left_comm]
        · rw [if_neg hpr]
          -- the far subtree `l` was pruned
          rcases hcase : KdTree.searchSimilarRec k r q (acceptStep q acc doc)
              (depth + 1) with _ | p2
          · rw [hcase] at hpr; exact absurd trivial hpr
          · rw [hcase] at hpr hacc2
            have hbd : p2.2 ≤
                |q.features.getD (depth % k) 0 - doc.features.getD (depth % k) 0| :=
              le_of_not_lt hpr
            have hfar : (accD (some p2)) ≤ infD q l.toList := by
              rw [le_infD_iff]
              intro e he
              have he1 : e.features.getD (depth % k) 0 <
                  doc.features.getD (depth % k) 0 := hl e he
              have he2 : |q.features.getD (depth % k) 0 -
                  e.features.getD (depth % k) 0| ≤
                  euclideanDistance q.features e.features :=
                abs_coord_le_euclideanDistance q.features e.features (depth % k)
                  (hq ▸ haxis) ((hldim e he) ▸ haxis)
              have hge : (0:ℝ) ≤ q.features.getD (depth % k) 0 -
                  doc.features.getD (depth % k) 0 := le_of_not_lt hdiff
              have he3 :
                  |q.features.getD (depth % k) 0 - doc.features.getD (depth % k) 0| ≤
                  |q.features.getD (depth % k) 0 - e.features.getD (depth % k) 0| := by
                rw [abs_of_nonneg hge, abs_of_nonneg (by linarith)]
                linarith
              have hfin : p2.2 ≤ euclideanDistance q.features e.features := by
                linarith
              simpa [accD] using WithTop.coe_le_coe.mpr hfin
            rw [hlist, hacc2]
            have hswap :
                min (accD acc)
                  (min (euclideanDistance q.features doc.features : WithTop ℝ)
                    (min (infD q l.toList) (infD q r.toList))) =
                min (min (min (accD acc)
                  (euclideanDistance q.features doc.features : WithTop ℝ))
                  (infD q r.toList)) (infD q l.toList) := by
              rw [min_comm (infD q l.toList) (infD q r.toList), min_assoc, min_assoc]
            have hfar2 : min (min (accD acc)
                (euclideanDistance q.features doc.features : WithTop ℝ))
                (infD q r.toList) ≤ infD q l.toList := by
              rw [← hacc2]; exact hfar
            rw [hswap, min_eq_left hfar2]

/-! ### Building indexes by repeated insertion (as the driver does) -/

/-- A sequential index built by inserting the documents of `ds` in order. -/
def buildList (ds : List Document) : DocumentList :=
  ds.foldl DocumentList.insert ⟨[]⟩

theorem foldl_listInsert_docs (ds : List Document) :
    ∀ L : DocumentList, (ds.foldl DocumentList.insert L).docs = L.docs ++ ds := by
  induction ds with
  | nil => intro L; simp
  | cons d es ih =>
    intro L
    rw [List.foldl_cons, ih]
    simp [DocumentList.insert]

theorem buildList_docs (ds : List Document) : (buildList ds).docs = ds := by
  rw [buildList, foldl_listInsert_docs]; rfl

/-- A k-d tree built by inserting the documents of `ds` in order. -/
noncomputable def buildKd (k : ℕ) (ds : List Document) : KdTree :=
  ds.foldl KdTree.insert (KdTree.empty k)

theorem foldl_kdInsert_k (ds : List Document) :
    ∀ t : KdTree, (ds.foldl KdTree.insert t).k = t.k := by
  induction ds with
  | nil => intro t; rfl
  | cons d es ih => intro t; rw [List.foldl_cons, ih]; rfl

theorem foldl_kdInsert_inv (ds : List Document) :
    ∀ t : KdTree, KdInv t.k 0 t.root →
      KdInv t.k 0 (ds.foldl KdTree.insert t).root := by
  induction ds with
  | nil => intro t h; exact h
  | cons d es ih =>
    intro t h
    rw [List.foldl_cons]
    have h1 : KdInv (t.insert d).k 0 (t.insert d).root :=
      insertRec_KdInv t.k d t.root 0 h
    have h2 := ih (t.insert d) h1
    rwa [show (t.insert d).k = t.k from rfl] at h2

theorem foldl_kdInsert_toList (ds : List Document) :
    ∀ t : KdTree, ((ds.foldl KdTree.insert t).root).toList.Perm
      (t.root.toList ++ ds) := by
  induction ds with
  | nil => intro t; simp
  | cons d es ih =>
    intro t
    rw [List.foldl_cons]
    refine List.Perm.trans (ih (t.insert d)) ?_
    have h1 : (t.insert d).root.toList.Perm (d :: t.root.toList) :=
      insertRec_toList_perm t.k d t.root 0
    refine List.Perm.trans (h1.append_right es) ?_
    simp only [List.cons_append]
    exact List.perm_middle.symm

theorem buildKd_k (k : ℕ) (ds : List Document) : (buildKd k ds).k = k := by
  rw [buildKd, foldl_kdInsert_k]; rfl

theorem buildKd_inv (k : ℕ) (ds : List Document) :
    KdInv k 0 (buildKd k ds).root := by
  have := foldl_kdInsert_inv ds (KdTree.empty k) (KdInv.nil 0)
  exact this

theorem buildKd_toList (k : ℕ) (ds : List Document) :
    (buildKd k ds).root.toList.Perm ds := by
  have := foldl_kdInsert_toList ds (KdTree.empty k)
  simpa [KdTree.empty, KdNode.toList] using this

/-! ### LSH hash index -/

/-- The dot-product loop of `DocumentHash::getHashKey` (DataStructures.cpp,
lines 189-192): iterate over the indices of `features`, reading the
projection vector at the same index (out of bounds, modelled as `0`, when the
projection is shorter — unreachable under the constructor invariant). -/
def dotAcc : List ℝ → List ℝ → ℝ
  | [], _ => 0
  | x :: xs, [] => x * 0 + dotAcc xs []
  | x :: xs, y :: ys => x * y + dotAcc xs ys

/-- `class DocumentHash` (DataStructures.h, lines 122-161).  The `std::map`
of buckets is modelled extensionally as a function with default value `[]`
(an absent key and an empty bucket are observationally identical in the
source).  The random projection basis generated by the constructor
(DataStructures.cpp, lines 150-165) is an arbitrary fixed field: the
randomness is external to the engine, chosen once and never regenerated. -/
structure DocumentHash where
  buckets : List ℤ → List Document
  projections : List (List ℝ)
  bucketWidth : ℝ
  numHashes : ℕ

/-- The invariant established by `DocumentHash::DocumentHash(dimensions,
nHashes, width)` (DataStructures.cpp, lines 158-164): `nHashes` projection
vectors, each with `dimensions` entries. -/
def DocumentHash.projInvariant (dimensions : ℕ) (h : DocumentHash) : Prop :=
  h.projections.length = h.numHashes ∧ ∀ p ∈ h.projections, p.length = dimensions

/-- A hash index fresh out of the constructor: all buckets empty, basis and
parameters as given. -/
def DocumentHash.fresh (nHashes : ℕ) (width : ℝ)
    (proj : List (List ℝ)) : DocumentHash :=
  ⟨fun _ => [], proj, width, nHashes⟩

/-- `DocumentHash::getHashKey` (DataStructures.cpp, lines 182-197): for each
of the `numHashes` projections, the floor of (dot product / bucketWidth). -/
noncomputable def DocumentHash.getHashKey (h : DocumentHash)
    (features : List ℝ) : List ℤ :=
  (List.range h.numHashes).map fun i =>
    ⌊dotAcc features (h.projections.getD i []) / h.bucketWidth⌋

/-- `DocumentHash::insert` (DataStructures.cpp, lines 171-175): append `d` to
the bucket of its key. -/
noncomputable def DocumentHash.insert (h : DocumentHash) (d : Document) :
    DocumentHash :=
  { h with buckets := fun key =>
      if key = h.getHashKey d.features then h.buckets key ++ [d]
      else h.buckets key }

/-- `DocumentHash::searchSimilar` (DataStructures.cpp, lines 205-226):
`nullptr` when the query's bucket is absent or empty, otherwise a linear
scan restricted to that single bucket. -/
noncomputable def DocumentHash.searchSimilar (h : DocumentHash)
    (query : Document) : Option Document :=
  if (h.buckets (h.getHashKey query.features)).isEmpty then none
  else (bestScan query (h.buckets (h.getHashKey query.features))).map Prod.fst

/-- A hash index built by inserting the documents of `ds` in order. -/
noncomputable def DocumentHash.insertAll (h : DocumentHash)
    (ds : List Document) : DocumentHash :=
  ds.foldl DocumentHash.insert h

theorem insert_projections (h : DocumentHash) (d : Document) :
    (h.insert d).projections = h.projections := rfl

theorem insert_getHashKey (h : DocumentHash) (d : Document) (f : List ℝ) :
    (h.insert d).getHashKey f = h.getHashKey f := rfl

theorem insertAll_getHashKey (ds : List Document) :
    ∀ (h : DocumentHash) (f : List ℝ),
      (h.insertAll ds).getHashKey f = h.getHashKey f := by
  induction ds with
  | nil => intro h f; rfl
  | cons d es ih =>
    intro h f
    rw [DocumentHash.insertAll, List.foldl_cons]
    exact ih (h.insert d) f

/-- After inserting `ds`, the bucket of `key` holds the old bucket followed by
exactly those documents of `ds` whose hash key is `key`, in insertion order. -/
theorem insertAll_buckets (ds : List Document) :
    ∀ (h : DocumentHash) (key : List ℤ),
      (h.insertAll ds).buckets key =
        h.buckets key ++
          ds.filter (fun d => decide (h.getHashKey d.features = key)) := by
  induction ds with
  | nil => intro h key; simp [DocumentHash.insertAll]
  | cons d es ih =>
    intro h key
    rw [DocumentHash.insertAll, List.foldl_cons]
    have h1 := ih (h.insert d) key
    rw [DocumentHash.insertAll] at h1
    rw [h1]
    simp only [insert_getHashKey]
    by_cases hk : h.getHashKey d.features = key
    · rw [List.filter_cons_of_pos (by simpa using hk)]
      simp only [DocumentHash.insert, if_pos hk.symm]
      simp
    · rw [List.filter_cons_of_neg (by simpa using hk)]
      simp only [DocumentHash.insert, if_neg (Ne.symm hk)]

/-! ### Lemmas for the checked distance -/

theorem sqDiffSumChecked_isSome (a b : List ℝ) :
    (sqDiffSumChecked a b).isSome ↔ a.length ≤ b.length := by
  induction a generalizing b with
  | nil => simp [sqDiffSumChecked]
  | cons x xs ih =>
    cases b with
    | nil => simp [sqDiffSumChecked]
    | cons y ys => simp [sqDiffSumChecked, ih ys]

theorem sqDiffSumChecked_take (a b : List ℝ) (h : a.length ≤ b.length) :
    sqDiffSumChecked a b = some (sqDiffSum a (b.take a.length)) := by
  induction a generalizing b with
  | nil => simp [sqDiffSumChecked, sqDiffSum]
  | cons x xs ih =>
    cases b with
    | nil => simp at h
    | cons y ys =>
      simp only [List.length_cons, Nat.succ_le_succ_iff] at h
      simp [sqDiffSumChecked, ih ys h, List.take, sqDiffSum]

/-! ### Claim theorems and witnesses -/

/-- C3: for all feature vectors `a` and `b` of equal length, the distance
function satisfies `dist(a,a) = 0`, `dist(a,b) = dist(b,a)` and
`dist(a,b) ≥ 0`. -/
theorem C3_distance_properties (a b : List ℝ) (h : a.length = b.length) :
    euclideanDistance a a = 0 ∧
    euclideanDistance a b = euclideanDistance b a ∧
    0 ≤ euclideanDistance a b :=
  ⟨euclideanDistance_self a, euclideanDistance_comm a b h,
    euclideanDistance_nonneg a b⟩

/-- Witness for C3 at the concrete vectors `[0,1]` and `[1,1]`. -/
theorem C3_distance_properties_witness :
    ([0, 1] : List ℝ).length = ([1, 1] : List ℝ).length ∧
    (euclideanDistance [0, 1] [0, 1] = 0 ∧
     euclideanDistance [0, 1] [1, 1] = euclideanDistance [1, 1] [0, 1] ∧
     0 ≤ euclideanDistance [0, 1] [1, 1]) :=
  ⟨by simp, C3_distance_properties [0, 1] [1, 1] (by simp)⟩

/-- C10: the distance loop runs over the indices of `a` only: whenever `b` is
at least as long as `a`, no access is out of bounds (the error branch of the
total embedding is unreachable, the result is `some`), and the components of
`b` beyond `a`'s length are silently ignored (the result only depends on
`b.take a.length`); conversely a shorter `b` does reach the error branch, so
there is no dimensionality check at this boundary. -/
theorem C10_distance_bounds (a b : List ℝ) :
    ((euclideanDistanceChecked a b).isSome ↔ a.length ≤ b.length) ∧
    (a.length ≤ b.length →
      euclideanDistanceChecked a b =
        some (euclideanDistance a (b.take a.length))) := by
  constructor
  · rw [euclideanDistanceChecked, ← sqDiffSumChecked_isSome a b]
    cases sqDiffSumChecked a b <;> simp
  · intro h
    rw [euclideanDistanceChecked, sqDiffSumChecked_take a b h]
    rfl

/-- Witness for C10 at `a = [1,2]`, `b = [3,4,5]` (strictly longer). -/
theorem C10_distance_bounds_witness :
    ([1, 2] : List ℝ).length ≤ ([3, 4, 5] : List ℝ).length ∧
    euclideanDistanceChecked [1, 2] [3, 4, 5] =
      some (euclideanDistance [1, 2]
        (([3, 4, 5] : List ℝ).take ([1, 2] : List ℝ).length)) :=
  ⟨by simp, (C10_distance_bounds [1, 2] [3, 4, 5]).2 (by simp)⟩

/-- C4: a freshly constructed, never-inserted-into index of each of the three
kinds answers any search with the ordinary value "no result" (`nullptr`,
here `none`) — never an error.  The source implements the fixed 1-nearest
request, so "empty result for any k" is the empty result of that form. -/
theorem C4_empty_index_search (q : Document) (dims nHashes : ℕ) (width : ℝ)
    (proj : List (List ℝ)) :
    DocumentList.searchSimilar ⟨[]⟩ q = none ∧
    KdTree.searchSimilar (KdTree.empty dims) q = none ∧
    DocumentHash.searchSimilar (DocumentHash.fresh nHashes width proj) q = none := by
  refine ⟨?_, ?_, ?_⟩
  · simp [DocumentList.searchSimilar]
  · rfl
  · simp [DocumentHash.searchSimilar, DocumentHash.fresh]

/-- C2: in the implemented 1-nearest-neighbor form of `search`, the number of
returned results is exactly `min 1 N` for the Sequential and Tree indexes
(`N` = stored document count) and exactly `min 1 bucket_size` for the Hash
index — possibly `0`. -/
theorem C2_result_count (q : Document) (L : DocumentList) (t : KdTree)
    (h : DocumentHash) :
    (L.searchSimilar q).toList.length = min 1 L.docs.length ∧
    (t.searchSimilar q).toList.length = min 1 t.root.toList.length ∧
    (h.searchSimilar q).toList.length =
      min 1 (h.buckets (h.getHashKey q.features)).length := by
  refine ⟨?_, ?_, ?_⟩
  · cases hd : L.docs with
    | nil => simp [DocumentList.searchSimilar, hd]
    | cons d ds =>
      rw [DocumentList.searchSimilar, hd]
      simp only [List.isEmpty_cons, if_neg]
      rcases hscan : bestScan q (d :: ds) with _ | p
      · rw [bestScan] at hscan
        have := (foldl_acceptStep_eq_none q (d :: ds) none).mp hscan
        exact absurd this.2 (by simp)
      · simp
  · cases hr : t.root with
    | nil => simp [KdTree.searchSimilar, hr, KdNode.toList]
    | node doc l r =>
      rw [KdTree.searchSimilar, hr]
      rcases hs : KdTree.searchSimilarRec t.k (KdNode.node doc l r) q none 0
        with _ | p
      · have := (searchSimilarRec_none_iff t.k q (KdNode.node doc l r) 0
          none).mp hs
        exact absurd this.2 (by simp)
      · simp [hs, KdNode.toList]
  · cases hb : h.buckets (h.getHashKey q.features) with
    | nil => simp [DocumentHash.searchSimilar, hb]
    | cons d ds =>
      rw [DocumentHash.searchSimilar]
      simp only [hb, List.isEmpty_cons, if_neg]
      rcases hscan : bestScan q (d :: ds) with _ | p
      · rw [bestScan] at hscan
        have := (foldl_acceptStep_eq_none q (d :: ds) none).mp hscan
        exact absurd this.2 (by simp)
      · simp

/-- C7: Spatial Tree insertion follows the axis-cycling rule: at a null slot
a new leaf with two null children is created; at a node the new document's
value on axis `depth % k` is compared with the node's value on that axis,
descending left exactly when strictly less and right otherwise, the node's
own document and the other child being kept unchanged; overall no stored
document is moved or modified — the stored multiset just gains `d`. -/
theorem C7_insertion_axis_rule (k : ℕ) (d doc : Document) (l r : KdNode)
    (depth : ℕ) :
    KdTree.insertRec k KdNode.nil d depth =
      KdNode.node d KdNode.nil KdNode.nil ∧
    KdTree.insertRec k (KdNode.node doc l r) d depth =
      (if d.features.getD (depth % k) 0 < doc.features.getD (depth % k) 0 then
        KdNode.node doc (KdTree.insertRec k l d (depth + 1)) r
      else
        KdNode.node doc l (KdTree.insertRec k r d (depth + 1))) ∧
    (KdTree.insertRec k (KdNode.node doc l r) d depth).toList.Perm
      (d :: (KdNode.node doc l r).toList) := by
  refine ⟨rfl, ?_, insertRec_toList_perm k d (KdNode.node doc l r) depth⟩
  rw [KdTree.insertRec]

/-- Mathematical dot product of two vectors, following the spec's words "the
dot product of the feature vector with the projection vector" (used to state
C8 against the source's index-driven loop). -/
def dotSpec (a b : List ℝ) : ℝ := ((a.zip b).map fun p => p.1 * p.2).sum

theorem dotAcc_eq_dotSpec (a b : List ℝ) (h : a.length = b.length) :
    dotAcc a b = dotSpec a b := by
  induction a generalizing b with
  | nil =>
    cases b with
    | nil => rfl
    | cons y ys => simp at h
  | cons x xs ih =>
    cases b with
    | nil => simp at h
    | cons y ys =>
      simp only [List.length_cons, Nat.succ_inj] at h
      simp [dotAcc, dotSpec, ih ys h]

theorem map_range_getD {α β : Type} (dflt : α) (f : α → β) (l : List α) :
    (List.range l.length).map (fun i => f (l.getD i dflt)) = l.map f := by
  induction l with
  | nil => simp
  | cons x xs ih =>
    rw [List.length_cons, List.range_succ_eq_map, List.map_cons, List.map_map]
    have h1 : ((fun i => f (List.getD (x :: xs) i dflt)) ∘ Nat.succ) =
        (fun i => f (xs.getD i dflt)) := by
      funext i
      simp [List.getD]
    rw [h1, ih]
    rfl

/-- C8: the hash key is the ordered tuple, over the `numHashes` projection
vectors, of `floor(dot(features, projection_i) / bucketWidth)`, and it is a
deterministic function of the feature vector and the fixed basis: any index
state with the same basis and parameters (whatever its buckets) yields the
same key. -/
theorem C8_hash_key (h : DocumentHash) (features : List ℝ) (dims : ℕ)
    (hp : h.projInvariant dims) (hf : features.length = dims) :
    h.getHashKey features =
      h.projections.map (fun p => ⌊dotSpec features p / h.bucketWidth⌋) ∧
    ∀ h2 : DocumentHash, h2.projections = h.projections →
      h2.bucketWidth = h.bucketWidth → h2.numHashes = h.numHashes →
      h2.getHashKey features = h.getHashKey features := by
  obtain ⟨hlen, hdims⟩ := hp
  constructor
  · rw [DocumentHash.getHashKey, ← hlen,
      map_range_getD ([] : List ℝ)
        (fun p => ⌊dotAcc features p / h.bucketWidth⌋) h.projections]
    refine List.map_congr_left ?_
    intro p hpmem
    rw [dotAcc_eq_dotSpec features p (by rw [hf, hdims p hpmem])]
  · intro h2 e1 e2 e3
    rw [DocumentHash.getHashKey, DocumentHash.getHashKey, e1, e2, e3]

/-- Witness for C8: basis `[[1]]`, `numHashes = 1`, `bucketWidth = 1`,
feature vector `[2]`. -/
theorem C8_hash_key_witness :
    (DocumentHash.fresh 1 1 [[1]]).projInvariant 1 ∧
    ([(2 : ℝ)].length = 1) ∧
    (DocumentHash.fresh 1 1 [[1]]).getHashKey [2] =
      (DocumentHash.fresh 1 1 [[1]]).projections.map
        (fun p => ⌊dotSpec [2] p / (DocumentHash.fresh 1 1 [[1]]).bucketWidth⌋) := by
  have h1 : (DocumentHash.fresh 1 1 [[1]]).projInvariant 1 := by
    constructor
    · rfl
    · intro p hp
      simp only [DocumentHash.fresh, List.mem_singleton] at hp
      rw [hp]
      rfl
  have h2 : [(2 : ℝ)].length = 1 := rfl
  exact ⟨h1, h2, (C8_hash_key (DocumentHash.fresh 1 1 [[1]]) [2] 1 h1 h2).1⟩

theorem kdSearchSimilar_node (t : KdTree) (doc : Document) (l r : KdNode)
    (q : Document) (h : t.root = KdNode.node doc l r) :
    t.searchSimilar q =
      (KdTree.searchSimilarRec t.k (KdNode.node doc l r) q none 0).map
        Prod.fst := by
  rw [KdTree.searchSimilar, h]

/-- C1 (amended): on any document set of uniform dimensionality `k > 0`, the
1-nearest-neighbor searches of the Sequential Index and of the Spatial Tree
Index both succeed and both attain the same distance — the minimum distance
over all stored documents (the branch-and-bound pruning never discards the
true nearest distance).  The returned identifiers themselves may differ when
two documents are equidistant from the query (see the counterexample). -/
theorem C1_distance_agreement (k : ℕ) (ds : List Document) (q : Document)
    (hk : 0 < k) (hds : ds ≠ [])
    (hdim : ∀ d ∈ ds, d.features.length = k) (hq : q.features.length = k) :
    ∃ b1 b2,
      (buildList ds).searchSimilar q = some b1 ∧
      (buildKd k ds).searchSimilar q = some b2 ∧
      euclideanDistance q.features b2.features =
        euclideanDistance q.features b1.features ∧
      ∀ d ∈ ds, euclideanDistance q.features b1.features ≤
        euclideanDistance q.features d.features := by
  -- sequential side
  have hdocs : (buildList ds).docs = ds := buildList_docs ds
  have hne : ds.isEmpty = false := by
    cases ds with
    | nil => exact absurd rfl hds
    | cons d es => rfl
  rcases hscan : bestScan q ds with _ | p1
  · rw [bestScan] at hscan
    exact absurd ((foldl_acceptStep_eq_none q ds none).mp hscan).2 hds
  have hb1 : (buildList ds).searchSimilar q = some p1.1 := by
    rw [DocumentList.searchSimilar, hdocs, hne]
    simp [hscan]
  have hspec1 : p1.1 ∈ ds ∧
      p1.2 = euclideanDistance q.features p1.1.features := by
    rcases foldl_acceptStep_spec q ds none p1 hscan with h | h
    · cases h
    · exact h
  have haccD1 : (p1.2 : WithTop ℝ) = infD q ds := by
    have h0 := accD_foldl q ds none
    rw [show ds.foldl (acceptStep q) none = bestScan q ds from rfl, hscan] at h0
    simp only [accD] at h0
    rw [min_eq_right le_top] at h0
    exact h0
  -- tree side
  have hkk : (buildKd k ds).k = k := buildKd_k k ds
  have hperm : (buildKd k ds).root.toList.Perm ds := buildKd_toList k ds
  have hinv : KdInv k 0 (buildKd k ds).root := buildKd_inv k ds
  rcases hroot : (buildKd k ds).root with _ | ⟨doc, l, r⟩
  · rw [hroot] at hperm
    simp only [KdNode.toList] at hperm
    exact absurd (List.perm_nil.mp hperm.symm) hds
  rw [hroot] at hperm hinv
  have hdim2 : ∀ e ∈ (KdNode.node doc l r).toList, e.features.length = k :=
    fun e he => hdim e (hperm.mem_iff.mp he)
  rcases hsrch : KdTree.searchSimilarRec k (KdNode.node doc l r) q none 0
    with _ | p2
  · exact absurd ((searchSimilarRec_none_iff k q (KdNode.node doc l r) 0
      none).mp hsrch).2 (by simp)
  have hb2 : (buildKd k ds).searchSimilar q = some p2.1 := by
    rw [kdSearchSimilar_node (buildKd k ds) doc l r q hroot, hkk, hsrch]
    rfl
  have hspec2 : p2.1 ∈ (KdNode.node doc l r).toList ∧
      p2.2 = euclideanDistance q.features p2.1.features := by
    rcases searchSimilarRec_spec k q (KdNode.node doc l r) 0 none p2 hsrch
      with h | h
    · cases h
    · exact h
  have haccD2 : (p2.2 : WithTop ℝ) = infD q ds := by
    have h0 := searchSimilarRec_accD k q hk hq (KdNode.node doc l r) 0 none
      hinv hdim2
    rw [hsrch] at h0
    simp only [accD] at h0
    rw [min_eq_right le_top] at h0
    rw [infD_perm q _ ds hperm] at h0
    exact h0
  have hdist_eq : p2.2 = p1.2 :=
    WithTop.coe_inj.mp (haccD2.trans haccD1.symm)
  refine ⟨p1.1, p2.1, hb1, hb2, ?_, ?_⟩
  · rw [← hspec1.2, ← hspec2.2, hdist_eq]
  · intro d hd
    have h1 : infD q ds ≤ (euclideanDistance q.features d.features : WithTop ℝ) :=
      infD_le_of_mem q d ds hd
    rw [← haccD1] at h1
    rw [← hspec1.2]
    exact_mod_cast h1

/-- Witness for C1 (amended) at `k = 1`, one stored document `[0]`, query
`[0]`. -/
theorem C1_distance_agreement_witness :
    (0 < 1 ∧ ([(⟨1, [0], ""⟩ : Document)] : List Document) ≠ [] ∧
      (∀ d ∈ ([(⟨1, [0], ""⟩ : Document)] : List Document),
        d.features.length = 1) ∧
      (⟨9, [0], ""⟩ : Document).features.length = 1) ∧
    ∃ b1 b2,
      (buildList [(⟨1, [0], ""⟩ : Document)]).searchSimilar ⟨9, [0], ""⟩ =
        some b1 ∧
      (buildKd 1 [(⟨1, [0], ""⟩ : Document)]).searchSimilar ⟨9, [0], ""⟩ =
        some b2 ∧
      euclideanDistance (⟨9, [0], ""⟩ : Document).features b2.features =
        euclideanDistance (⟨9, [0], ""⟩ : Document).features b1.features ∧
      ∀ d ∈ ([(⟨1, [0], ""⟩ : Document)] : List Document),
        euclideanDistance (⟨9, [0], ""⟩ : Document).features b1.features ≤
          euclideanDistance (⟨9, [0], ""⟩ : Document).features d.features := by
  have h1 : (0:ℕ) < 1 := Nat.one_pos
  have h2 : ([(⟨1, [0], ""⟩ : Document)] : List Document) ≠ [] := by simp
  have h3 : ∀ d ∈ ([(⟨1, [0], ""⟩ : Document)] : List Document),
      d.features.length = 1 := by
    intro d hd
    simp only [List.mem_singleton] at hd
    rw [hd]
    rfl
  have h4 : (⟨9, [0], ""⟩ : Document).features.length = 1 := rfl
  exact ⟨⟨h1, h2, h3, h4⟩,
    C1_distance_agreement 1 [(⟨1, [0], ""⟩ : Document)] ⟨9, [0], ""⟩ h1 h2 h3 h4⟩

/-- The Sequential Index search on a non-empty store returns a document
attaining the infimum of the distances. -/
theorem buildList_search_dist (ds : List Document) (q : Document)
    (hds : ds ≠ []) :
    ∃ b, (buildList ds).searchSimilar q = some b ∧
      (euclideanDistance q.features b.features : WithTop ℝ) = infD q ds := by
  have hdocs : (buildList ds).docs = ds := buildList_docs ds
  have hne : ds.isEmpty = false := by
    cases ds with
    | nil => exact absurd rfl hds
    | cons d es => rfl
  rcases hscan : bestScan q ds with _ | p1
  · rw [bestScan] at hscan
    exact absurd ((foldl_acceptStep_eq_none q ds none).mp hscan).2 hds
  have hspec1 : p1.1 ∈ ds ∧
      p1.2 = euclideanDistance q.features p1.1.features := by
    rcases foldl_acceptStep_spec q ds none p1 hscan with h | h
    · cases h
    · exact h
  have haccD1 : (p1.2 : WithTop ℝ) = infD q ds := by
    have h0 := accD_foldl q ds none
    rw [show ds.foldl (acceptStep q) none = bestScan q ds from rfl, hscan] at h0
    simp only [accD] at h0
    rw [min_eq_right le_top] at h0
    exact h0
  refine ⟨p1.1, ?_, ?_⟩
  · rw [DocumentList.searchSimilar, hdocs, hne]
    simp [hscan]
  · rw [← hspec1.2]
    exact haccD1

/-- C9 (amended): inserting the same documents into the Sequential Index in
any two orders yields search results at the same distance from the query
(both attain the minimum over the stored set); the returned document itself
can differ when two stored documents are equidistant from the query (see the
counterexample). -/
theorem C9_order_independent_distance (ds1 ds2 : List Document) (q : Document)
    (h : ds1.Perm ds2) :
    Option.map (fun b => euclideanDistance q.features b.features)
        ((buildList ds1).searchSimilar q) =
      Option.map (fun b => euclideanDistance q.features b.features)
        ((buildList ds2).searchSimilar q) := by
  cases hds1 : ds1 with
  | nil =>
    have hds2 : ds2 = [] := by
      rw [hds1] at h
      exact (List.perm_nil.mp h.symm)
    rw [hds2]
  | cons d es =>
    have hne1 : ds1 ≠ [] := by rw [hds1]; simp
    have hne2 : ds2 ≠ [] := by
      intro hcon
      rw [hcon] at h
      exact absurd (List.perm_nil.mp h) hne1
    obtain ⟨b1, hb1, he1⟩ := buildList_search_dist ds1 q hne1
    obtain ⟨b2, hb2, he2⟩ := buildList_search_dist ds2 q hne2
    rw [← hds1, hb1, hb2]
    simp only [Option.map_some']
    congr 1
    apply WithTop.coe_inj.mp
    rw [he1, he2]
    exact infD_perm q ds1 ds2 h

/-- C5 (amended): querying the Hash Index with a feature vector equal to that
of a previously inserted document `d` returns a (top-ranked, being the single
returned result) document at distance 0 from the query — `d` itself whenever
no other stored document shares its feature vector, but possibly an earlier
duplicate (see the counterexample). -/
theorem C5_exact_query_distance_zero (nHashes : ℕ) (width : ℝ)
    (proj : List (List ℝ)) (ds : List Document) (d q : Document)
    (hd : d ∈ ds) (hq : q.features = d.features) :
    ∃ b, ((DocumentHash.fresh nHashes width proj).insertAll ds).searchSimilar q
        = some b ∧
      euclideanDistance q.features b.features = 0 := by
  set h0 := DocumentHash.fresh nHashes width proj with hh0
  set hS := h0.insertAll ds with hhS
  set key := hS.getHashKey q.features with hkeydef
  have hkey : key = h0.getHashKey q.features := by
    rw [hkeydef, hhS]
    exact insertAll_getHashKey ds h0 q.features
  have hbuck : hS.buckets key =
      ds.filter (fun e => decide (h0.getHashKey e.features = key)) := by
    rw [hhS, insertAll_buckets ds h0 key]
    simp [hh0, DocumentHash.fresh]
  have hdk : decide (h0.getHashKey d.features = key) = true := by
    rw [hkey, hq]
    simp
  have hdmem : d ∈ hS.buckets key := by
    rw [hbuck]
    exact List.mem_filter.mpr ⟨hd, hdk⟩
  have hne : (hS.buckets key).isEmpty = false := by
    cases hcase : hS.buckets key with
    | nil => rw [hcase] at hdmem; cases hdmem
    | cons x xs => rfl
  rcases hscan : bestScan q (hS.buckets key) with _ | p
  · rw [bestScan] at hscan
    have hcon := (foldl_acceptStep_eq_none q (hS.buckets key) none).mp hscan
    rw [hcon.2] at hdmem
    cases hdmem
  have hspec : p.1 ∈ hS.buckets key ∧
      p.2 = euclideanDistance q.features p.1.features := by
    rcases foldl_acceptStep_spec q (hS.buckets key) none p hscan with h | h
    · cases h
    · exact h
  have haccD : (p.2 : WithTop ℝ) = infD q (hS.buckets key) := by
    have h0a := accD_foldl q (hS.buckets key) none
    rw [show (hS.buckets key).foldl (acceptStep q) none =
      bestScan q (hS.buckets key) from rfl, hscan] at h0a
    simp only [accD] at h0a
    rw [min_eq_right le_top] at h0a
    exact h0a
  have hle : infD q (hS.buckets key) ≤ ((0:ℝ) : WithTop ℝ) := by
    have h1 := infD_le_of_mem q d (hS.buckets key) hdmem
    rw [hq, euclideanDistance_self] at h1
    exact h1
  rw [← haccD] at hle
  have hp2 : p.2 ≤ 0 := by exact_mod_cast hle
  have hge : 0 ≤ p.2 := by
    rw [hspec.2]
    exact euclideanDistance_nonneg _ _
  refine ⟨p.1, ?_, ?_⟩
  · rw [DocumentHash.searchSimilar, ← hkeydef, hne]
    simp [hscan]
  · rw [← hspec.2]
    exact le_antisymm hp2 hge

/-- Witness for C5 (amended): basis `[[1]]`, width 1, a single stored
document with features `[0]`, queried with an equal feature vector. -/
theorem C5_exact_query_distance_zero_witness :
    ((⟨1, [0], ""⟩ : Document) ∈ ([(⟨1, [0], ""⟩ : Document)] : List Document) ∧
      (⟨2, [0], ""⟩ : Document).features = (⟨1, [0], ""⟩ : Document).features) ∧
    ∃ b, ((DocumentHash.fresh 1 1 [[1]]).insertAll
        [(⟨1, [0], ""⟩ : Document)]).searchSimilar ⟨2, [0], ""⟩ = some b ∧
      euclideanDistance (⟨2, [0], ""⟩ : Document).features b.features = 0 :=
  ⟨⟨List.mem_singleton_self _, rfl⟩,
    C5_exact_query_distance_zero 1 1 [[1]] [(⟨1, [0], ""⟩ : Document)]
      ⟨1, [0], ""⟩ ⟨2, [0], ""⟩ (List.mem_singleton_self _) rfl⟩

/-- Any document found in a bucket of a hash index built from a fresh one by
repeated insertion hashes to that bucket's key. -/
theorem insertAll_fresh_bucket_keys (nHashes : ℕ) (width : ℝ)
    (proj : List (List ℝ)) (ds : List Document) (key : List ℤ) (b : Document)
    (hb : b ∈ ((DocumentHash.fresh nHashes width proj).insertAll ds).buckets
      key) :
    ((DocumentHash.fresh nHashes width proj).insertAll ds).getHashKey
      b.features = key := by
  rw [insertAll_buckets] at hb
  have h2 : b ∈ ds ∧
      (DocumentHash.fresh nHashes width proj).getHashKey b.features = key := by
    simpa [DocumentHash.fresh] using hb
  rw [insertAll_getHashKey]
  exact h2.2

/-- C6: Hash Index search never leaves the query's bucket: on an index built
by insertions from fresh, if the query's bucket is absent/empty the result is
empty, and any returned document's hash key equals the query's hash key (so a
document stored under a different key — such as `[500,0]` in the spec's
scenario — can never be returned). -/
theorem C6_single_bucket_search (nHashes : ℕ) (width : ℝ)
    (proj : List (List ℝ)) (ds : List Document) (q : Document) :
    (((DocumentHash.fresh nHashes width proj).insertAll ds).buckets
        (((DocumentHash.fresh nHashes width proj).insertAll ds).getHashKey
          q.features) = [] →
      ((DocumentHash.fresh nHashes width proj).insertAll ds).searchSimilar q =
        none) ∧
    ∀ b, ((DocumentHash.fresh nHashes width proj).insertAll ds).searchSimilar q
        = some b →
      ((DocumentHash.fresh nHashes width proj).insertAll ds).getHashKey
          b.features =
        ((DocumentHash.fresh nHashes width proj).insertAll ds).getHashKey
          q.features := by
  constructor
  · intro hE
    rw [DocumentHash.searchSimilar, hE]
    simp
  · intro b hb
    rw [DocumentHash.searchSimilar] at hb
    by_cases hE : (((DocumentHash.fresh nHashes width proj).insertAll
        ds).buckets (((DocumentHash.fresh nHashes width proj).insertAll
        ds).getHashKey q.features)).isEmpty
    · rw [if_pos hE] at hb
      cases hb
    · rw [if_neg hE] at hb
      rcases hscan : bestScan q (((DocumentHash.fresh nHashes width
          proj).insertAll ds).buckets (((DocumentHash.fresh nHashes width
          proj).insertAll ds).getHashKey q.features)) with _ | p
      · rw [hscan] at hb
        cases hb
      · rw [hscan] at hb
        simp only [Option.map_some', Option.some_inj] at hb
        have hmem : p.1 ∈ ((DocumentHash.fresh nHashes width proj).insertAll
            ds).buckets (((DocumentHash.fresh nHashes width proj).insertAll
            ds).getHashKey q.features) := by
          rcases foldl_acceptStep_spec q _ none p hscan with h | h
          · cases h
          · exact h.1
        rw [← hb]
        exact insertAll_fresh_bucket_keys nHashes width proj ds _ p.1 hmem

theorem buildList_eq (ds : List Document) : buildList ds = ⟨ds⟩ := by
  have h := buildList_docs ds
  cases hb : buildList ds with
  | mk docs =>
    rw [hb] at h
    exact congrArg DocumentList.mk h

/-- Witness for C9 (amended) at the two insertion orders of the documents
with features `[0]` and `[1]`. -/
theorem C9_order_independent_distance_witness :
    List.Perm [(⟨1, [0], ""⟩ : Document), ⟨2, [1], ""⟩]
      [(⟨2, [1], ""⟩ : Document), ⟨1, [0], ""⟩] ∧
    Option.map (fun b => euclideanDistance (⟨9, [0], ""⟩ : Document).features
        b.features)
        ((buildList [(⟨1, [0], ""⟩ : Document), ⟨2, [1], ""⟩]).searchSimilar
          ⟨9, [0], ""⟩) =
      Option.map (fun b => euclideanDistance (⟨9, [0], ""⟩ : Document).features
        b.features)
        ((buildList [(⟨2, [1], ""⟩ : Document), ⟨1, [0], ""⟩]).searchSimilar
          ⟨9, [0], ""⟩) :=
  ⟨List.Perm.swap _ _ _,
    C9_order_independent_distance _ _ ⟨9, [0], ""⟩ (List.Perm.swap _ _ _)⟩

/-- Counterexample to C9 as stated: two documents with identical feature
vectors (both at distance 0 from the query) are returned differently by the
two insertion orders — the scan keeps the first strict improvement, so the
tie goes to whichever document was inserted first. -/
theorem C9_counterexample :
    List.Perm [(⟨1, [0], ""⟩ : Document), ⟨2, [0], ""⟩]
      [(⟨2, [0], ""⟩ : Document), ⟨1, [0], ""⟩] ∧
    (buildList [(⟨1, [0], ""⟩ : Document), ⟨2, [0], ""⟩]).searchSimilar
      ⟨9, [0], ""⟩ = some ⟨1, [0], ""⟩ ∧
    (buildList [(⟨2, [0], ""⟩ : Document), ⟨1, [0], ""⟩]).searchSimilar
      ⟨9, [0], ""⟩ = some ⟨2, [0], ""⟩ ∧
    (⟨1, [0], ""⟩ : Document) ≠ ⟨2, [0], ""⟩ := by
  refine ⟨List.Perm.swap _ _ _, ?_, ?_, by simp⟩
  · rw [buildList_eq, DocumentList.searchSimilar]
    simp [bestScan, acceptStep, ltFlt, euclideanDistance_self]
  · rw [buildList_eq, DocumentList.searchSimilar]
    simp [bestScan, acceptStep, ltFlt, euclideanDistance_self]

/-- Counterexample to C5 as stated: the query's feature vector equals that of
the previously inserted document with id 2, yet the search returns the
document with id 1 (an earlier insertion with the same feature vector), not
the queried-for document itself; the returned distance is still 0. -/
theorem C5_counterexample :
    ((⟨2, [0], ""⟩ : Document) ∈
      [(⟨1, [0], ""⟩ : Document), ⟨2, [0], ""⟩]) ∧
    (⟨9, [0], ""⟩ : Document).features = (⟨2, [0], ""⟩ : Document).features ∧
    ((DocumentHash.fresh 1 1 [[1]]).insertAll
      [(⟨1, [0], ""⟩ : Document), ⟨2, [0], ""⟩]).searchSimilar ⟨9, [0], ""⟩ =
      some ⟨1, [0], ""⟩ ∧
    (⟨1, [0], ""⟩ : Document) ≠ (⟨2, [0], ""⟩ : Document) := by
  have hkey0 : (DocumentHash.fresh 1 1 [[1]]).getHashKey [(0:ℝ)] = [0] := by
    simp [DocumentHash.getHashKey, DocumentHash.fresh, dotAcc, List.range_succ]
  have hbuckets : ((DocumentHash.fresh 1 1 [[1]]).insertAll
      [(⟨1, [0], ""⟩ : Document), ⟨2, [0], ""⟩]).buckets [0] =
      [(⟨1, [0], ""⟩ : Document), ⟨2, [0], ""⟩] := by
    rw [insertAll_buckets]
    simp [show (DocumentHash.fresh 1 1 [[1]]).buckets [0] = [] from rfl, hkey0]
  have hkeyq : ((DocumentHash.fresh 1 1 [[1]]).insertAll
      [(⟨1, [0], ""⟩ : Document), ⟨2, [0], ""⟩]).getHashKey
      (⟨9, [0], ""⟩ : Document).features = [0] := by
    rw [insertAll_getHashKey]
    exact hkey0
  refine ⟨by simp, rfl, ?_, by simp⟩
  rw [DocumentHash.searchSimilar, hkeyq, hbuckets]
  simp [bestScan, acceptStep, ltFlt, euclideanDistance_self]

/-- Witness for C6: the spec's scenario — `numHashes = 1`,
`bucketWidth = 100`, projection `[1,0]`, stored `[6,0]` and `[500,0]`,
query `[5,0]`: the search returns `[6,0]` (never `[500,0]`, which lives in
bucket `[5]`), and the returned document's key equals the query's key. -/
theorem C6_single_bucket_search_witness :
    ((DocumentHash.fresh 1 100 [[1, 0]]).insertAll
      [(⟨1, [6, 0], ""⟩ : Document), ⟨2, [500, 0], ""⟩]).searchSimilar
        ⟨9, [5, 0], ""⟩ = some ⟨1, [6, 0], ""⟩ ∧
    ((DocumentHash.fresh 1 100 [[1, 0]]).insertAll
      [(⟨1, [6, 0], ""⟩ : Document), ⟨2, [500, 0], ""⟩]).getHashKey
        (⟨1, [6, 0], ""⟩ : Document).features =
      ((DocumentHash.fresh 1 100 [[1, 0]]).insertAll
        [(⟨1, [6, 0], ""⟩ : Document), ⟨2, [500, 0], ""⟩]).getHashKey
        (⟨9, [5, 0], ""⟩ : Document).features := by
  have hkey6 : (DocumentHash.fresh 1 100 [[1, 0]]).getHashKey [(6:ℝ), 0] =
      [0] := by
    norm_num [DocumentHash.getHashKey, DocumentHash.fresh, dotAcc,
      List.range_succ]
  have hkey500 : (DocumentHash.fresh 1 100 [[1, 0]]).getHashKey [(500:ℝ), 0] =
      [5] := by
    norm_num [DocumentHash.getHashKey, DocumentHash.fresh, dotAcc,
      List.range_succ]
  have hkey5 : (DocumentHash.fresh 1 100 [[1, 0]]).getHashKey [(5:ℝ), 0] =
      [0] := by
    norm_num [DocumentHash.getHashKey, DocumentHash.fresh, dotAcc,
      List.range_succ]
  have hbuckets : ((DocumentHash.fresh 1 100 [[1, 0]]).insertAll
      [(⟨1, [6, 0], ""⟩ : Document), ⟨2, [500, 0], ""⟩]).buckets [0] =
      [(⟨1, [6, 0], ""⟩ : Document)] := by
    rw [insertAll_buckets]
    simp [show (DocumentHash.fresh 1 100 [[1, 0]]).buckets [0] = [] from rfl,
      hkey6, hkey500]
  have hkeyq : ((DocumentHash.fresh 1 100 [[1, 0]]).insertAll
      [(⟨1, [6, 0], ""⟩ : Document), ⟨2, [500, 0], ""⟩]).getHashKey
      (⟨9, [5, 0], ""⟩ : Document).features = [0] := by
    rw [insertAll_getHashKey]
    exact hkey5
  have hres : ((DocumentHash.fresh 1 100 [[1, 0]]).insertAll
      [(⟨1, [6, 0], ""⟩ : Document), ⟨2, [500, 0], ""⟩]).searchSimilar
      ⟨9, [5, 0], ""⟩ = some ⟨1, [6, 0], ""⟩ := by
    rw [DocumentHash.searchSimilar, hkeyq, hbuckets]
    simp [bestScan, acceptStep, ltFlt]
  exact ⟨hres, (C6_single_bucket_search 1 100 [[1, 0]]
    [(⟨1, [6, 0], ""⟩ : Document), ⟨2, [500, 0], ""⟩] ⟨9, [5, 0], ""⟩).2
    ⟨1, [6, 0], ""⟩ hres⟩

/-- Counterexample to C1 as stated: with documents `[0,0]` (id 1), `[-1,5]`
(id 2) and `[1,5]` (id 3) and query `[0,5]`, ids 2 and 3 tie at distance 1;
the Sequential Index returns id 2 (first inserted) while the Spatial Tree
Index returns id 3 (visited first, in the near subtree) — the returned
identifier sets differ, though the attained distances are equal. -/
theorem C1_counterexample :
    (buildList [(⟨1, [0, 0], ""⟩ : Document), ⟨2, [-1, 5], ""⟩,
        ⟨3, [1, 5], ""⟩]).searchSimilar ⟨9, [0, 5], ""⟩ =
      some ⟨2, [-1, 5], ""⟩ ∧
    (buildKd 2 [(⟨1, [0, 0], ""⟩ : Document), ⟨2, [-1, 5], ""⟩,
        ⟨3, [1, 5], ""⟩]).searchSimilar ⟨9, [0, 5], ""⟩ =
      some ⟨3, [1, 5], ""⟩ ∧
    (⟨2, [-1, 5], ""⟩ : Document).id ≠ (⟨3, [1, 5], ""⟩ : Document).id := by
  have hsq : sqDiffSum [(0:ℝ), 5] [(0:ℝ), 0] = 25 := by
    norm_num [sqDiffSum]
  have dR : euclideanDistance [(0:ℝ), 5] [(0:ℝ), 0] = 5 := by
    rw [euclideanDistance, hsq, show (25:ℝ) = 5 ^ 2 by norm_num,
      Real.sqrt_sq (by norm_num : (0:ℝ) ≤ 5)]
  have dX : euclideanDistance [(0:ℝ), 5] [(-1:ℝ), 5] = 1 := by
    rw [euclideanDistance, show sqDiffSum [(0:ℝ), 5] [(-1:ℝ), 5] = 1 by
      norm_num [sqDiffSum], Real.sqrt_one]
  have dY : euclideanDistance [(0:ℝ), 5] [(1:ℝ), 5] = 1 := by
    rw [euclideanDistance, show sqDiffSum [(0:ℝ), 5] [(1:ℝ), 5] = 1 by
      norm_num [sqDiffSum], Real.sqrt_one]
  refine ⟨?_, ?_, by simp⟩
  · rw [buildList_eq, DocumentList.searchSimilar]
    norm_num [bestScan, acceptStep, ltFlt, dR, dX, dY]
  · have htree : buildKd 2 [(⟨1, [0, 0], ""⟩ : Document), ⟨2, [-1, 5], ""⟩,
        ⟨3, [1, 5], ""⟩] =
        ⟨2, .node ⟨1, [0, 0], ""⟩
          (.node ⟨2, [-1, 5], ""⟩ .nil .nil)
          (.node ⟨3, [1, 5], ""⟩ .nil .nil)⟩ := by
      rw [buildKd]
      simp only [List.foldl_cons, List.foldl_nil, KdTree.insert, KdTree.empty]
      norm_num [KdTree.insertRec, List.getD]
    rw [htree, kdSearchSimilar_node _ ⟨1, [0, 0], ""⟩
      (.node ⟨2, [-1, 5], ""⟩ .nil .nil)
      (.node ⟨3, [1, 5], ""⟩ .nil .nil) ⟨9, [0, 5], ""⟩ rfl]
    norm_num [KdTree.searchSimilarRec, acceptStep, ltFlt, dR, dX, dY,
      List.getD]

end SimilaritySearch
